import Mathlib

/-!
A shallow embedding of ardb's Lua scripting subsystem
(src/command/lua_scripting.cpp): the reply/value codec, the script cache,
the execution-context registry, the database call bridge, the interpreter's
resolution and invocation algorithm, and the EVAL/EVALSHA/SCRIPT command
surface.

External collaborators (the embedded Lua engine, the command table, the
storage engine) are modelled as explicit functional parameters.  Utility
functions of the repository that live outside the scripting source file
(sha1_sum, string_touint32, string_replace, the rand48 generator) are
modelled from the spec and say so in their doc comments.
-/

/-- Error codes set through reply.SetErrCode on the scripting command
surface. -/
inductive ErrCode where
  | noscript
  | invalidIntegerArgs
  | invalidSyntax
  | invalidArgs
deriving DecidableEq, Repr

/-- The database's typed wire-reply model (RedisReply).  The `error`
constructor carries a textual reason (SetErrorReason) and `errCode` a coded
error (SetErrCode); both have wire type REDIS_REPLY_ERROR.  Status replies
produced by SetStatusCode(STATUS_OK) are rendered as their text.  Double
replies (floating point) are outside the model; nothing in the embedded
subsystem produces one. -/
inductive RedisReply where
  | nil
  | integer (i : Int)
  | bulk (s : String)
  | status (s : String)
  | error (s : String)
  | errCode (c : ErrCode)
  | array (members : List RedisReply)

/-- Wire type REDIS_REPLY_ERROR covers both textual and coded errors. -/
def RedisReply.isError : RedisReply → Bool
  | .error _ => true
  | .errCode _ => true
  | _ => false

/-- Keys of a Lua table: the code only ever reads string keys ("err", "ok")
and numeric keys (1, 2, ...) via lua_gettable. -/
inductive LuaKey where
  | str (s : String)
  | num (n : Int)
deriving DecidableEq, Repr

/-- The engine's value model, as discriminated by lua_type in the codec:
nil, boolean, number, string, table, and a catch-all `other` for the types
(function, userdata, thread) that the codec's default branch maps to NIL.
Lua numbers are doubles truncated toward zero by the codec; the model
carries the integer directly.  A table is its list of key/value entries;
storing nil in a Lua table is impossible, which the lookup below mirrors by
treating a nil value like a missing key. -/
inductive LuaValue where
  | nil
  | boolean (b : Bool)
  | num (n : Int)
  | str (s : String)
  | table (entries : List (LuaKey × LuaValue))
  | other

def LuaValue.isNil : LuaValue → Bool
  | .nil => true
  | _ => false

def LuaValue.isStr : LuaValue → Bool
  | .str _ => true
  | _ => false

/-- Plain table read (lua_gettable on a table without metamethods): the
first entry with the requested key, nil when absent. -/
def tblGet (entries : List (LuaKey × LuaValue)) (k : LuaKey) : LuaValue :=
  match entries.find? (fun e => e.1 == k) with
  | some e => e.2
  | none => .nil

/-- Modelled from the spec: `string_replace` (util/, not under src/)
replaces every occurrence of a pattern left to right; the codec uses it to
turn each literal CR LF pair into a single space. -/
def crlfToSpace : List Char → List Char
  | [] => []
  | '\r' :: '\n' :: rest => ' ' :: crlfToSpace rest
  | c :: rest => c :: crlfToSpace rest

def string_replace_crlf (s : String) : String := ⟨crlfToSpace s.data⟩

/-- The array loop of luaReplyToRedisReply: read values at sequential
numeric keys starting from `j`, stopping at the first nil (missing key).
The fuel bounds the loop; `entries.length` steps always suffice because a
table with `n` entries cannot have more than `n` distinct present keys. -/
def seqList (entries : List (LuaKey × LuaValue)) : Nat → Nat → List LuaValue
  | _, 0 => []
  | j, fuel + 1 =>
    match tblGet entries (.num (Int.ofNat j)) with
    | .nil => []
    | v => v :: seqList entries (j + 1) fuel

theorem tblGet_mem {entries : List (LuaKey × LuaValue)} {k : LuaKey} {v : LuaValue}
    (h : tblGet entries k = v) (hv : v ≠ .nil) : (k, v) ∈ entries := by
  unfold tblGet at h
  cases hfind : entries.find? (fun e => e.1 == k) with
  | none => rw [hfind] at h; exact absurd h.symm hv
  | some e =>
    rw [hfind] at h
    have hmem := List.mem_of_find?_eq_some hfind
    have hp := List.find?_some hfind
    have hk : e.1 = k := by simpa using hp
    have : e = (k, v) := by
      cases e; simp_all
    rw [← this]; exact hmem

theorem exists_key_of_mem_seqList {entries : List (LuaKey × LuaValue)} {v : LuaValue}
    {j fuel : Nat} (h : v ∈ seqList entries j fuel) : ∃ k, (k, v) ∈ entries := by
  induction fuel generalizing j with
  | zero => simp [seqList] at h
  | succ n ih =>
    rw [seqList] at h
    cases htg : tblGet entries (.num (Int.ofNat j)) with
    | nil => rw [htg] at h; simp at h
    | boolean b =>
      rw [htg] at h
      rcases List.mem_cons.mp h with rfl | hrest
      · exact ⟨_, tblGet_mem htg (by simp)⟩
      · exact ih hrest
    | num m =>
      rw [htg] at h
      rcases List.mem_cons.mp h with rfl | hrest
      · exact ⟨_, tblGet_mem htg (by simp)⟩
      · exact ih hrest
    | str s =>
      rw [htg] at h
      rcases List.mem_cons.mp h with rfl | hrest
      · exact ⟨_, tblGet_mem htg (by simp)⟩
      · exact ih hrest
    | table es =>
      rw [htg] at h
      rcases List.mem_cons.mp h with rfl | hrest
      · exact ⟨_, tblGet_mem htg (by simp)⟩
      · exact ih hrest
    | other =>
      rw [htg] at h
      rcases List.mem_cons.mp h with rfl | hrest
      · exact ⟨_, tblGet_mem htg (by simp)⟩
      · exact ih hrest

mutual

/-- Structural size of an engine value, used as recursion fuel for the
conversion below. -/
def luaSize : LuaValue → Nat
  | .table entries => 1 + luaSizeEntries entries
  | _ => 1

def luaSizeEntries : List (LuaKey × LuaValue) → Nat
  | [] => 0
  | (_, v) :: rest => 1 + luaSize v + luaSizeEntries rest

end

theorem luaSize_lt_of_key_mem {entries : List (LuaKey × LuaValue)} {k : LuaKey}
    {v : LuaValue} (h : (k, v) ∈ entries) : luaSize v < 1 + luaSizeEntries entries := by
  induction entries with
  | nil => simp at h
  | cons e rest ih =>
    rcases List.mem_cons.mp h with rfl | hrest
    · simp [luaSizeEntries]; omega
    · have := ih hrest
      obtain ⟨k', v'⟩ := e
      simp only [luaSizeEntries]
      omega

theorem luaSize_lt_of_mem_seqList {entries : List (LuaKey × LuaValue)} {v : LuaValue}
    {j fuel : Nat} (h : v ∈ seqList entries j fuel) :
    luaSize v < luaSize (LuaValue.table entries) := by
  obtain ⟨k, hk⟩ := exists_key_of_mem_seqList h
  have h1 := luaSize_lt_of_key_mem hk
  simp only [luaSize]
  exact h1

/-- Fuelled engine-value to reply conversion.  The fuel is only a
termination device for the recursion through table lookups: it is consumed
once per table level, `luaSize` of the value always suffices (the wrapper
below passes it), and `luaToRedisFuel_congr` proves the result does not
depend on the fuel as long as it is sufficient. -/
def luaToRedisFuel : Nat → LuaValue → RedisReply
  | fuel, v =>
    match v with
    | .nil => .nil
    | .boolean b => if b then .integer 1 else .nil
    | .num n => .integer n
    | .str s => .bulk s
    | .other => .nil
    | .table entries =>
      match fuel with
      | 0 => .nil
      | g + 1 =>
        match tblGet entries (.str "err") with
        | .str e => .error (string_replace_crlf e)
        | _ =>
          match tblGet entries (.str "ok") with
          | .str o => .status (string_replace_crlf o)
          | _ => .array ((seqList entries 1 entries.length).map (luaToRedisFuel g))

/-- Engine-value to reply conversion (luaReplyToRedisReply): strings become
STRING, true becomes INTEGER 1, false and other types become NIL, numbers
become INTEGER; a table is an ERROR if it has a string `err` field, else a
STATUS if it has a string `ok` field (both CRLF-sanitised), else an ARRAY
of the values at sequential numeric keys 1, 2, ... up to the first gap,
each converted recursively. -/
def luaReplyToRedisReply (v : LuaValue) : RedisReply := luaToRedisFuel (luaSize v) v

theorem one_le_luaSize (v : LuaValue) : 1 ≤ luaSize v := by
  cases v <;> simp [luaSize]

/-- The conversion does not depend on the fuel once the fuel is at least
the size of the value. -/
theorem luaToRedisFuel_congr (f1 : Nat) : ∀ (f2 : Nat) (v : LuaValue),
    luaSize v ≤ f1 → luaSize v ≤ f2 → luaToRedisFuel f1 v = luaToRedisFuel f2 v := by
  induction f1 with
  | zero =>
    intro f2 v h1 _
    have := one_le_luaSize v
    omega
  | succ g1 ih =>
    intro f2 v h1 h2
    cases v with
    | nil => cases f2 <;> rfl
    | boolean b => cases f2 <;> rfl
    | num n => cases f2 <;> rfl
    | str s => cases f2 <;> rfl
    | other => cases f2 <;> rfl
    | table entries =>
      cases f2 with
      | zero =>
        have := one_le_luaSize (LuaValue.table entries)
        omega
      | succ g2 =>
        show (match tblGet entries (.str "err") with
          | .str e => RedisReply.error (string_replace_crlf e)
          | _ =>
            match tblGet entries (.str "ok") with
            | .str o => RedisReply.status (string_replace_crlf o)
            | _ => RedisReply.array ((seqList entries 1 entries.length).map (luaToRedisFuel g1))) =
          (match tblGet entries (.str "err") with
          | .str e => RedisReply.error (string_replace_crlf e)
          | _ =>
            match tblGet entries (.str "ok") with
            | .str o => RedisReply.status (string_replace_crlf o)
            | _ => RedisReply.array ((seqList entries 1 entries.length).map (luaToRedisFuel g2)))
        have hmap : (seqList entries 1 entries.length).map (luaToRedisFuel g1) =
            (seqList entries 1 entries.length).map (luaToRedisFuel g2) := by
          apply List.map_congr_left
          intro a ha
          have hlt := luaSize_lt_of_mem_seqList ha
          have hsz : luaSize (LuaValue.table entries) = 1 + luaSizeEntries entries := rfl
          have h1' : luaSize (LuaValue.table entries) ≤ g1 + 1 := h1
          have h2' : luaSize (LuaValue.table entries) ≤ g2 + 1 := h2
          exact ih g2 a (by omega) (by omega)
        cases tblGet entries (.str "err") <;> cases tblGet entries (.str "ok") <;>
          simp only [hmap]

/-- Modelled from the spec: reply_error_string renders a coded error as its
descriptive text (the exact wording lives outside the scripting source). -/
def errCodeText : ErrCode → String
  | .noscript => "NOSCRIPT No matching script. Please use EVAL."
  | .invalidIntegerArgs => "value is not an integer or out of range"
  | .invalidSyntax => "syntax error"
  | .invalidArgs => "wrong number of arguments"

/-- Sequential 1-based numbering of converted array members, as produced by
the loop pushing key j+1 for member j. -/
def luaIndexFrom : Nat → List LuaValue → List (LuaKey × LuaValue)
  | _, [] => []
  | j, v :: rest => (.num (Int.ofNat j), v) :: luaIndexFrom (j + 1) rest

mutual

/-- Reply to engine-value conversion (redisProtocolToLuaType): numbers from
INTEGER, false from NIL, raw string from STRING, single-field `ok` and
`err` tables from STATUS and ERROR, and a 1-based sequential table from
ARRAY with members converted recursively. -/
def redisProtocolToLuaType : RedisReply → LuaValue
  | .integer i => .num i
  | .nil => .boolean false
  | .bulk s => .str s
  | .status s => .table [(.str "ok", .str s)]
  | .error s => .table [(.str "err", .str s)]
  | .errCode c => .table [(.str "err", .str (errCodeText c))]
  | .array ms => .table (luaIndexFrom 1 (redisProtocolToLuaTypeList ms))

def redisProtocolToLuaTypeList : List RedisReply → List LuaValue
  | [] => []
  | r :: rs => redisProtocolToLuaType r :: redisProtocolToLuaTypeList rs

end

/-- Hexadecimal digit for a value below 16. -/
def hexDigit (n : Nat) : Char :=
  if n < 10 then Char.ofNat (48 + n) else Char.ofNat (87 + n)

/-- Modelled from the spec: `sha1_sum` (util/, not under src/) is the
40-character hexadecimal content digest of a string.  The model digest is a
hex dump of the bytes padded or truncated to exactly 40 characters; no
theorem below relies on collision-freedom, only on the digest being a
deterministic 40-character function of the source. -/
def sha1_sum (s : String) : String :=
  ⟨List.take 40 ((s.data.flatMap fun c => [hexDigit (c.toNat / 16 % 16), hexDigit (c.toNat % 16)])
    ++ List.replicate 40 'e')⟩

theorem sha1_sum_length (s : String) : (sha1_sum s).length = 40 := by
  have h : (sha1_sum s).length = (List.take 40 ((s.data.flatMap fun c =>
      [hexDigit (c.toNat / 16 % 16), hexDigit (c.toNat % 16)]) ++ List.replicate 40 'e')).length := rfl
  rw [h, List.length_take, List.length_append, List.length_replicate]
  omega

/-- Association-list read: the TreeMap find of the C code. -/
def alistGet (l : List (String × String)) (k : String) : Option String :=
  match l.find? (fun e => e.1 == k) with
  | some e => some e.2
  | none => none

/-- Association-list upsert: the TreeMap assignment of the C code. -/
def alistPut (l : List (String × String)) (k v : String) : List (String × String) :=
  (k, v) :: l.filter (fun e => !(e.1 == k))

/-- Association-list erase by key. -/
def alistDel (l : List (String × String)) (k : String) : List (String × String) :=
  l.filter (fun e => !(e.1 == k))

theorem alistGet_put (l : List (String × String)) (k v k' : String) :
    alistGet (alistPut l k v) k' = if k' = k then some v else alistGet l k' := by
  unfold alistGet alistPut
  by_cases hk : k' = k
  · subst hk; simp
  · have hne : (k == k') = false := by
      simp [beq_iff_eq]; exact fun h => hk h.symm
    simp only [List.find?, hne]
    rw [if_neg hk]
    induction l with
    | nil => simp
    | cons e rest ih =>
      by_cases he : e.1 = k
      · have h1 : (e.1 == k) = true := by simpa using he
        have h2 : (e.1 == k') = false := by
          simp [beq_iff_eq]; intro h; exact hk (h ▸ he.symm ▸ rfl)
        simp only [List.filter, h1, Bool.not_true]
        rw [List.find?]
        simp only [h2]
        exact ih
      · have h1 : (e.1 == k) = false := by simpa using he
        simp only [List.filter, h1, Bool.not_false]
        rw [List.find?, List.find?]
        cases hfe : (e.1 == k') with
        | true => rfl
        | false => exact ih

theorem alistGet_put_isSome (l : List (String × String)) (k v k' : String)
    (h : (alistGet l k').isSome = true) : (alistGet (alistPut l k v) k').isSome = true := by
  rw [alistGet_put]
  by_cases hk : k' = k
  · simp [hk]
  · simp [hk, h]

/-- One in-flight invocation's bookkeeping (LuaExecContext).  The C object
is identified by its address in the registry set; the model carries an
explicit identifier instead.  The back-reference to the command-execution
context is outside the model. -/
structure LuaExecContext where
  id : Nat
  lua_time_start : Nat
  lua_executing_func : String
  lua_timeout : Bool
  lua_kill : Bool
  lua_abort : Bool
deriving DecidableEq, Repr

/-- The cross-worker shared state plus one worker's engine: the global
script cache (g_script_cache), the worker's compiled-function namespace
(funcname to the source it was compiled from), the global execution-context
registry (g_script_ctxs), the rand48 generator state, and the interpreter's
static GC pacing counter. -/
structure ServerState where
  cache : List (String × String)
  engine : List (String × String)
  registry : List LuaExecContext
  prng : Nat
  gcCount : Nat

/-- Modelled from the spec: redisSrand48 (util/rand, not under src/) loads
the 32-bit seed into the 48-bit generator state in the lrand48 layout; the
only property used is that the state after seeding is a fixed function of
the seed. -/
def srand48init (seed : Nat) : Nat := (seed % 4294967296) * 65536 + 13070

def get_script_from_cache (cache : List (String × String)) (funcname : String) :
    Option String :=
  alistGet cache funcname

/-- save_script_to_cache: an empty body erases the entry (the deletion
affordance), otherwise the body is stored under the funcname. -/
def save_script_to_cache (cache : List (String × String)) (funcname body : String) :
    List (String × String) :=
  if body = "" then alistDel cache funcname else alistPut cache funcname body

def clear_script_cache (_cache : List (String × String)) : List (String × String) := []

def save_exec_ctx (reg : List LuaExecContext) (c : LuaExecContext) : List LuaExecContext :=
  c :: reg

def erase_exec_ctx (reg : List LuaExecContext) (id : Nat) : List LuaExecContext :=
  reg.filter (fun c => !(c.id == id))

/-- kill_luafunc: mark every live context whose executing function matches
(or every context, when the argument is empty) for cancellation. -/
def kill_luafunc (reg : List LuaExecContext) (func : String) : List LuaExecContext :=
  reg.map (fun c => if func = c.lua_executing_func ∨ func = "" then
    { c with lua_kill := true } else c)

/-- The command-table entry the bridge looks up: only the NOSCRIPT flag of
RedisCommandHandlerSetting matters to this subsystem. -/
structure CmdSetting where
  noscript : Bool
deriving DecidableEq, Repr

/-- luaPushError: an error table with a single `err` field pushed on the
stack.  The source-location prefix that lua_getstack sometimes provides is
engine-internal debug state outside the model; the branch modelled is the
plain-message one. -/
def luaPushError (msg : String) : LuaValue :=
  .table [(.str "err", .str msg)]

/-- What a bridge builtin does as a lua_CFunction: either return `n`
results with the given top-of-stack value, or raise an engine-level error
carrying the given value (lua_error). -/
inductive CallOutcome where
  | ret (pushed : LuaValue) (nresults : Int)
  | raise (v : LuaValue)

def CallOutcome.isRaise : CallOutcome → Bool
  | .raise _ => true
  | _ => false

structure CallResult where
  outcome : CallOutcome
  dispatched : Bool

/-- lua_isstring accepts strings and numbers. -/
def luaIsStringArg : LuaValue → Bool
  | .str _ => true
  | .num _ => true
  | _ => false

/-- lua_tostring on an argument already known to pass lua_isstring. -/
def luaArgToString : LuaValue → String
  | .str s => s
  | .num n => toString n
  | _ => ""

/-- Extraction of the `err` field the raising path performs before
lua_error. -/
def errFieldOf : LuaValue → LuaValue
  | .table es => tblGet es (.str "err")
  | _ => .nil

/-- The database call bridge (LUAInterpreter::CallArdb).  `findSetting`
models FindRedisCommandHandlerSetting over the external command table and
`doCall` models DoCall filling the invocation's reply buffer.  Argument
errors, unknown commands and NOSCRIPT-flagged commands push an error table
and return without dispatching (the latter two with the code's result
count of -1); otherwise the command is dispatched, its reply converted,
and, for the raising variant, an ERROR reply is re-raised as an
engine-level error carrying the `err` field. -/
def CallArdb (findSetting : String → Option CmdSetting)
    (doCall : List String → RedisReply) (raise_error : Bool)
    (args : List LuaValue) : CallResult :=
  match args with
  | [] =>
    ⟨.ret (luaPushError "Please specify at least one argument for redis.call()") 1, false⟩
  | a0 :: rest =>
    if (a0 :: rest).all luaIsStringArg then
      let cmdargs := (a0 :: rest).map luaArgToString
      match findSetting (luaArgToString a0) with
      | none => ⟨.ret (luaPushError "Unknown Redis command called from Lua script") (-1), false⟩
      | some setting =>
        if setting.noscript then
          ⟨.ret (luaPushError "This Redis command is not allowed from scripts") (-1), false⟩
        else
          let reply := doCall cmdargs
          let doRaise := raise_error && reply.isError
          let v := redisProtocolToLuaType reply
          if doRaise then ⟨.raise (errFieldOf v), true⟩
          else ⟨.ret v 1, true⟩
    else
      ⟨.ret (luaPushError "Lua redis() command arguments must be strings or integers") 1, false⟩

/-- redis.call as registered in Init: the non-raising wrapper (Call passes
raise_error = false). -/
def redisCallBuiltin (findSetting : String → Option CmdSetting)
    (doCall : List String → RedisReply) (args : List LuaValue) : CallResult :=
  CallArdb findSetting doCall false args

/-- redis.pcall as registered in Init: the raising wrapper (PCall passes
raise_error = true). -/
def redisPCallBuiltin (findSetting : String → Option CmdSetting)
    (doCall : List String → RedisReply) (args : List LuaValue) : CallResult :=
  CallArdb findSetting doCall true args

/-- Outcome of running a resolved function body on the engine: a returned
value, or a raised engine-level error with the text lua_tostring yields
(runtime errors, the timeout and kill fatal errors included). -/
inductive ExecResult where
  | ok (v : LuaValue)
  | err (msg : String)

/-- Aggregate result of one interpreter invocation: the outgoing reply,
the state after, whether the engine was invoked (lua_pcall of the
function), and every (funcname, body) pair passed to save_script_to_cache
in call order. -/
structure EvalOut where
  reply : RedisReply
  st : ServerState
  invokedEngine : Bool
  saves : List (String × String)

section Interpreter

variable (luaCompileErr : String → Option String)
variable (luaExec : String → List String → List String → Nat → ExecResult × Nat)

/-- LUAInterpreter::CreateLuaFunction: wrap the body as a zero-argument
function bound to the funcname, compile and run the definition, and on
success record the mapping in the script cache.  `luaCompileErr` models
luaL_loadbuffer plus the definition pcall of the external engine (some
message on failure, none on success); failure leaves cache and engine
untouched.  Returns the optional error text, the new cache, the new
engine namespace, and the save_script_to_cache calls made. -/
def LUAInterpreter.CreateLuaFunction (cache engine : List (String × String))
    (funcname body : String) :
    Option String × List (String × String) × List (String × String) × List (String × String) :=
  let funcdef := "function " ++ funcname ++ "() " ++ body ++ " end"
  match luaCompileErr funcdef with
  | some m => (some ("Error compiling script (new function): " ++ m ++ "\n"), cache, engine, [])
  | none => (none, save_script_to_cache cache funcname body, alistPut engine funcname body,
      [(funcname, body)])

/-- The invocation tail of LUAInterpreter::Eval once the function is
resolved: register a fresh execution context, run the protected call,
unregister the context (on success and on engine-level error alike), pace
the garbage collector, and convert the outcome into the outgoing reply. -/
def LUAInterpreter.runFunc (st : ServerState) (freshId : Nat) (funcname body : String)
    (keys args : List String) (saves0 : List (String × String)) : EvalOut :=
  let ctx : LuaExecContext :=
    { id := freshId, lua_time_start := 0, lua_executing_func := funcname.drop 2,
      lua_timeout := false, lua_kill := false, lua_abort := false }
  let reg1 := save_exec_ctx st.registry ctx
  let run := luaExec body keys args st.prng
  let reg2 := erase_exec_ctx reg1 freshId
  let gc' := if st.gcCount + 1 = 50 then 0 else st.gcCount + 1
  let reply := match run.1 with
    | .err m => RedisReply.error ("Error running script (call to " ++ funcname ++ "): " ++ m ++ "\n")
    | .ok v => luaReplyToRedisReply v
  { reply := reply, st := { st with registry := reg2, prng := run.2, gcCount := gc' },
    invokedEngine := true, saves := saves0 }

/-- Resolution step shared by the EVAL and EVALSHA paths when the function
is absent from the engine namespace: compile-and-define, then either
report the definition error or proceed to invocation. -/
def LUAInterpreter.defineAndRun (st : ServerState) (freshId : Nat) (funcname body : String)
    (keys args : List String) (saves0 : List (String × String)) : EvalOut :=
  match LUAInterpreter.CreateLuaFunction luaCompileErr st.cache st.engine funcname body with
  | (some e, c', en', ops) =>
    { reply := .error e, st := { st with cache := c', engine := en' },
      invokedEngine := false, saves := saves0 ++ ops }
  | (none, c', en', ops) =>
    LUAInterpreter.runFunc luaExec { st with cache := c', engine := en' } freshId funcname body
      keys args (saves0 ++ ops)

/-- LUAInterpreter::Eval: reseed the script-visible generator with 0,
derive the prefixed identifier (rejecting a by-hash identifier that is not
exactly 40 characters with a no-script error), look the function up in the
engine namespace; if absent, resolve the body from the cache (by-hash;
missing entry is a no-script error) or record the literal source in the
cache and compile it (by-source); finally invoke the resolved function. -/
def LUAInterpreter.Eval (st : ServerState) (freshId : Nat) (func : String)
    (keys args : List String) (isSHA1Func : Bool) : EvalOut :=
  let st0 : ServerState := { st with prng := srand48init 0 }
  if isSHA1Func ∧ func.length ≠ 40 then
    { reply := .errCode .noscript, st := st0, invokedEngine := false, saves := [] }
  else
    let funcname := "f_" ++ (cond isSHA1Func func (sha1_sum func))
    match alistGet st0.engine funcname with
    | some body => LUAInterpreter.runFunc luaExec st0 freshId funcname body keys args []
    | none =>
      cond isSHA1Func
        (match get_script_from_cache st0.cache funcname with
        | none => { reply := .errCode .noscript, st := st0, invokedEngine := false, saves := [] }
        | some body =>
          LUAInterpreter.defineAndRun luaCompileErr luaExec st0 freshId funcname body keys args [])
        (LUAInterpreter.defineAndRun luaCompileErr luaExec
          { st0 with cache := save_script_to_cache st0.cache funcname func }
          freshId funcname func keys args [(funcname, func)])

/-- Result of SCRIPT LOAD on the interpreter: success flag, the returned
text (hash on success, hash followed by the appended compile error on
failure, since the code reuses the `ret` buffer as the error accumulator),
the state after, and the cache saves performed. -/
structure LoadOut where
  ok : Bool
  ret : String
  st : ServerState
  saves : List (String × String)

/-- LUAInterpreter::Load: compute the content hash and compile-and-define
the function under the prefixed hash. -/
def LUAInterpreter.Load (st : ServerState) (func : String) : LoadOut :=
  let ret := sha1_sum func
  let funcname := "f_" ++ ret
  match LUAInterpreter.CreateLuaFunction luaCompileErr st.cache st.engine funcname func with
  | (some e, c', en', ops) =>
    { ok := false, ret := ret ++ e, st := { st with cache := c', engine := en' }, saves := ops }
  | (none, c', en', ops) =>
    { ok := true, ret := ret, st := { st with cache := c', engine := en' }, saves := ops }

end Interpreter

/-- Value of a decimal digit string. -/
def digitsToNat (l : List Char) : Nat :=
  l.foldl (fun acc c => acc * 10 + (c.toNat - 48)) 0

/-- Modelled from the spec: `string_touint32` (util/, not under src/)
parses a decimal unsigned 32-bit integer; non-digit or empty input and
values not representable in 32 bits are rejected ("invalid integer for
numkeys"). -/
def string_touint32 (s : String) : Option Nat :=
  if s.data ≠ [] ∧ s.data.all Char.isDigit then
    let v := digitsToNat s.data
    if v < 4294967296 then some v else none
  else none

/-- Result of the EVAL/EVALSHA command surface: the reply, the state after,
whether the call was delegated to the interpreter, and the interpreter's
cache-save trace. -/
structure ArdbEvalOut where
  reply : RedisReply
  st : ServerState
  invoked : Bool
  saves : List (String × String)

section CommandSurface

variable (luaCompileErr : String → Option String)
variable (luaExec : String → List String → List String → Nat → ExecResult × Nat)

/-- Ardb::Eval, the EVAL/EVALSHA entry point.  The command's argument
vector is script, numkeys text, then the trailing arguments; the dispatch
table guarantees at least the two leading ones.  The numkeys text must
parse as a 32-bit unsigned integer, the argument count is validated
against it, and the remainder is split into KEYS and ARGV.  Arithmetic on
numkeys is 32-bit as in the C source (numkey + 2 wraps modulo 2^32). -/
def Ardb.Eval (st : ServerState) (freshId : Nat) (script numkeysText : String)
    (rest : List String) (isSHA : Bool) : ArdbEvalOut :=
  match string_touint32 numkeysText with
  | none => { reply := .errCode .invalidIntegerArgs, st := st, invoked := false, saves := [] }
  | some numkey =>
    let bound := (numkey + 2) % 4294967296
    if rest.length + 2 < bound then
      { reply := .errCode .invalidSyntax, st := st, invoked := false, saves := [] }
    else
      let keys := rest.take (bound - 2)
      let args := (script :: numkeysText :: rest).drop bound
      let o := LUAInterpreter.Eval luaCompileErr luaExec st freshId script keys args isSHA
      { reply := o.reply, st := o.st, invoked := true, saves := o.saves }

/-- Ardb::EvalSHA delegates to Ardb::Eval with the EVALSHA flag. -/
def Ardb.EvalSHA (st : ServerState) (freshId : Nat) (script numkeysText : String)
    (rest : List String) : ArdbEvalOut :=
  Ardb.Eval luaCompileErr luaExec st freshId script numkeysText rest true

/-- ASCII uppercase of a string, modelling the case-insensitive
subcommand comparison strcasecmp performs. -/
def asciiUpper (s : String) : String :=
  ⟨s.data.map fun c =>
    if 97 ≤ c.toNat ∧ c.toNat ≤ 122 then Char.ofNat (c.toNat - 32) else c⟩

/-- Ardb::Script: the SCRIPT subcommand dispatcher (case-insensitive).
EXISTS answers per-argument cache membership; FLUSH clears the script
cache; KILL marks matching (or all) live contexts; LOAD compiles-and-
defines on the calling worker's engine; anything else is a syntax
error. -/
def Ardb.Script (st : ServerState) (sub : String) (rest : List String) :
    RedisReply × ServerState :=
  if asciiUpper sub = "EXISTS" then
    (.array (rest.map fun h =>
      .integer (if (get_script_from_cache st.cache ("f_" ++ h)).isSome then 1 else 0)), st)
  else if asciiUpper sub = "FLUSH" then
    if rest.length ≠ 0 then (.errCode .invalidArgs, st)
    else (.status "OK", { st with cache := clear_script_cache st.cache })
  else if asciiUpper sub = "KILL" then
    if rest.length > 1 then (.errCode .invalidArgs, st)
    else
      match rest with
      | [f] => (.status "OK", { st with registry := kill_luafunc st.registry f })
      | _ => (.status "OK", { st with registry := kill_luafunc st.registry "" })
  else if asciiUpper sub = "LOAD" then
    match rest with
    | [src] =>
      let o := LUAInterpreter.Load luaCompileErr st src
      (cond o.ok (.bulk o.ret) (.error o.ret), o.st)
    | _ => (.errCode .invalidArgs, st)
  else
    (.errCode .invalidSyntax, st)

end CommandSurface

/-- A compiler stub that accepts every chunk, for concrete runs. -/
def compileAllOk : String → Option String := fun _ => none

/-- A compiler stub that rejects every chunk, for concrete runs exercising
the compile-failure path. -/
def compileAllFail : String → Option String := fun _ => some "unexpected symbol"

/-- An engine stub whose protected call always returns the number 7 and
leaves the generator state unchanged, for concrete runs. -/
def execConst7 : String → List String → List String → Nat → ExecResult × Nat :=
  fun _ _ _ p => (.ok (.num 7), p)

/-- The pristine server state: empty cache, empty engine namespace, empty
registry. -/
def st0 : ServerState := { cache := [], engine := [], registry := [], prng := 0, gcCount := 0 }

theorem isNil_eq_true_iff {v : LuaValue} : v.isNil = true ↔ v = .nil := by
  cases v <;> simp [LuaValue.isNil]

theorem alistGet_mem {l : List (String × String)} {k v : String}
    (h : alistGet l k = some v) : (k, v) ∈ l := by
  unfold alistGet at h
  cases hfind : l.find? (fun e => e.1 == k) with
  | none => rw [hfind] at h; cases h
  | some e =>
    rw [hfind] at h
    have hmem := List.mem_of_find?_eq_some hfind
    have hp := List.find?_some hfind
    have hk : e.1 = k := by simpa using hp
    have hv : e.2 = v := by cases h; rfl
    have : e = (k, v) := by cases e; simp_all
    rw [← this]; exact hmem

theorem runFunc_reply (lx : String → List String → List String → Nat → ExecResult × Nat)
    (st : ServerState) (id : Nat) (fn body : String) (keys args : List String)
    (sv : List (String × String)) :
    (LUAInterpreter.runFunc lx st id fn body keys args sv).reply =
      (match (lx body keys args st.prng).1 with
       | .err m => RedisReply.error ("Error running script (call to " ++ fn ++ "): " ++ m ++ "\n")
       | .ok v => luaReplyToRedisReply v) := rfl

theorem runFunc_st_cache (lx : String → List String → List String → Nat → ExecResult × Nat)
    (st : ServerState) (id : Nat) (fn body : String) (keys args : List String)
    (sv : List (String × String)) :
    (LUAInterpreter.runFunc lx st id fn body keys args sv).st.cache = st.cache := rfl

theorem runFunc_st_engine (lx : String → List String → List String → Nat → ExecResult × Nat)
    (st : ServerState) (id : Nat) (fn body : String) (keys args : List String)
    (sv : List (String × String)) :
    (LUAInterpreter.runFunc lx st id fn body keys args sv).st.engine = st.engine := rfl

theorem runFunc_st_registry (lx : String → List String → List String → Nat → ExecResult × Nat)
    (st : ServerState) (id : Nat) (fn body : String) (keys args : List String)
    (sv : List (String × String)) :
    (LUAInterpreter.runFunc lx st id fn body keys args sv).st.registry =
      erase_exec_ctx (save_exec_ctx st.registry
        { id := id, lua_time_start := 0, lua_executing_func := fn.drop 2,
          lua_timeout := false, lua_kill := false, lua_abort := false }) id := rfl

theorem erase_save_fresh (reg : List LuaExecContext) (ctx : LuaExecContext)
    (h : ctx.id ∉ reg.map LuaExecContext.id) :
    erase_exec_ctx (save_exec_ctx reg ctx) ctx.id = reg := by
  unfold erase_exec_ctx save_exec_ctx
  rw [List.filter]
  have hh : (ctx.id == ctx.id) = true := by simp
  simp only [hh, Bool.not_true]
  apply List.filter_eq_self.mpr
  intro c hc
  have : c.id ≠ ctx.id := by
    intro he
    exact h (List.mem_map.mpr ⟨c, hc, he⟩)
  simp [this]

section EvalBranches

variable (ce : String → Option String)
variable (lx : String → List String → List String → Nat → ExecResult × Nat)

theorem eval_sha_badlen (st : ServerState) (id : Nat) (h : String) (keys args : List String)
    (hl : h.length ≠ 40) :
    LUAInterpreter.Eval ce lx st id h keys args true =
      { reply := .errCode .noscript, st := { st with prng := srand48init 0 },
        invokedEngine := false, saves := [] } := by
  unfold LUAInterpreter.Eval
  rw [if_pos ⟨rfl, hl⟩]

theorem eval_nonsha_hit (st : ServerState) (id : Nat) (f : String) (keys args : List String)
    (body : String)
    (heng : alistGet st.engine ("f_" ++ sha1_sum f) = some body) :
    LUAInterpreter.Eval ce lx st id f keys args false =
      LUAInterpreter.runFunc lx { st with prng := srand48init 0 } id
        ("f_" ++ sha1_sum f) body keys args [] := by
  unfold LUAInterpreter.Eval
  rw [if_neg (by simp)]
  simp only [Bool.cond_false]
  rw [heng]

theorem eval_nonsha_miss (st : ServerState) (id : Nat) (f : String) (keys args : List String)
    (heng : alistGet st.engine ("f_" ++ sha1_sum f) = none) :
    LUAInterpreter.Eval ce lx st id f keys args false =
      LUAInterpreter.defineAndRun ce lx
        { st with
          prng := srand48init 0
          cache := save_script_to_cache st.cache ("f_" ++ sha1_sum f) f }
        id ("f_" ++ sha1_sum f) f keys args [("f_" ++ sha1_sum f, f)] := by
  unfold LUAInterpreter.Eval
  rw [if_neg (by simp)]
  simp only [Bool.cond_false]
  rw [heng]

theorem eval_sha_hit (st : ServerState) (id : Nat) (h : String) (keys args : List String)
    (body : String) (hl : h.length = 40)
    (heng : alistGet st.engine ("f_" ++ h) = some body) :
    LUAInterpreter.Eval ce lx st id h keys args true =
      LUAInterpreter.runFunc lx { st with prng := srand48init 0 } id
        ("f_" ++ h) body keys args [] := by
  unfold LUAInterpreter.Eval
  rw [if_neg (by simp [hl])]
  simp only [Bool.cond_true]
  rw [heng]

theorem eval_sha_miss_cachemiss (st : ServerState) (id : Nat) (h : String)
    (keys args : List String) (hl : h.length = 40)
    (heng : alistGet st.engine ("f_" ++ h) = none)
    (hc : get_script_from_cache st.cache ("f_" ++ h) = none) :
    LUAInterpreter.Eval ce lx st id h keys args true =
      { reply := .errCode .noscript, st := { st with prng := srand48init 0 },
        invokedEngine := false, saves := [] } := by
  unfold LUAInterpreter.Eval
  rw [if_neg (by simp [hl])]
  simp only [Bool.cond_true]
  rw [heng]
  simp only [Bool.cond_true]
  rw [show ({ st with prng := srand48init 0 } : ServerState).cache = st.cache from rfl, hc]

theorem eval_sha_miss_cachehit (st : ServerState) (id : Nat) (h : String)
    (keys args : List String) (body : String) (hl : h.length = 40)
    (heng : alistGet st.engine ("f_" ++ h) = none)
    (hc : get_script_from_cache st.cache ("f_" ++ h) = some body) :
    LUAInterpreter.Eval ce lx st id h keys args true =
      LUAInterpreter.defineAndRun ce lx { st with prng := srand48init 0 }
        id ("f_" ++ h) body keys args [] := by
  unfold LUAInterpreter.Eval
  rw [if_neg (by simp [hl])]
  simp only [Bool.cond_true]
  rw [heng]
  simp only [Bool.cond_true]
  rw [show ({ st with prng := srand48init 0 } : ServerState).cache = st.cache from rfl, hc]

end EvalBranches

/-- A zero-key EVAL/EVALSHA command reduces to the interpreter invocation
with empty KEYS and ARGV. -/
theorem ardbEval_zero (ce : String → Option String)
    (lx : String → List String → List String → Nat → ExecResult × Nat)
    (st : ServerState) (id : Nat) (s : String) (b : Bool) :
    Ardb.Eval ce lx st id s "0" [] b =
      { reply := (LUAInterpreter.Eval ce lx st id s [] [] b).reply,
        st := (LUAInterpreter.Eval ce lx st id s [] [] b).st,
        invoked := true,
        saves := (LUAInterpreter.Eval ce lx st id s [] [] b).saves } := rfl

/-- The state after EVAL "return 7" 0 on a pristine worker: the function is
compiled and the script cached. -/
def c1AfterEval : ServerState :=
  (Ardb.Eval compileAllOk execConst7 st0 1 "return 7" "0" [] false).st

/-- The state after a subsequent SCRIPT FLUSH: cache cleared, compiled
function still in the engine namespace. -/
def c1AfterFlush : ServerState := (Ardb.Script compileAllOk c1AfterEval "FLUSH" []).2

/-- C1 counterexample: after SCRIPT FLUSH, EVALSHA of the hash defined by
the earlier EVAL on the same worker does NOT fail with a no-script error:
the cache entry is gone, yet the invocation finds the compiled function in
the engine namespace and returns its result. -/
theorem evalsha_after_flush_runs_compiled_function_cex :
    get_script_from_cache c1AfterFlush.cache ("f_" ++ sha1_sum "return 7") = none ∧
    (Ardb.Eval compileAllOk execConst7 c1AfterFlush 2 (sha1_sum "return 7") "0" [] true).reply =
      RedisReply.integer 7 ∧
    (Ardb.Eval compileAllOk execConst7 c1AfterFlush 2 (sha1_sum "return 7") "0" [] true).reply ≠
      RedisReply.errCode ErrCode.noscript := by
  have h1 : (Ardb.Eval compileAllOk execConst7 c1AfterFlush 2 (sha1_sum "return 7") "0" [] true).reply =
      RedisReply.integer 7 := rfl
  refine ⟨rfl, h1, fun hcon => ?_⟩
  rw [h1] at hcon
  exact RedisReply.noConfusion hcon

/-- C1 (amended): after SCRIPT FLUSH, an EVALSHA whose hash is not freshly
loaded fails with a no-script error provided the worker's engine has not
already compiled the function; on a worker whose engine holds the compiled
function, the invocation proceeds with it (a flush clears only the cache,
never the engine namespaces). -/
theorem evalsha_after_flush_noscript_when_not_compiled
    (ce : String → Option String)
    (lx : String → List String → List String → Nat → ExecResult × Nat)
    (st : ServerState) (id : Nat) (h : String) (keys args : List String)
    (heng : alistGet st.engine ("f_" ++ h) = none) :
    (LUAInterpreter.Eval ce lx (Ardb.Script ce st "FLUSH" []).2 id h keys args true).reply =
      RedisReply.errCode ErrCode.noscript := by
  show (LUAInterpreter.Eval ce lx { st with cache := [] } id h keys args true).reply =
    RedisReply.errCode ErrCode.noscript
  by_cases hl : h.length = 40
  · rw [eval_sha_miss_cachemiss ce lx { st with cache := [] } id h keys args hl heng rfl]
  · rw [eval_sha_badlen ce lx { st with cache := [] } id h keys args hl]

/-- Witness for the amended C1 theorem at a concrete state. -/
theorem evalsha_after_flush_noscript_when_not_compiled_witness :
    alistGet st0.engine ("f_" ++ sha1_sum "nosuch") = none ∧
    (LUAInterpreter.Eval compileAllOk execConst7 (Ardb.Script compileAllOk st0 "FLUSH" []).2
      5 (sha1_sum "nosuch") [] [] true).reply = RedisReply.errCode ErrCode.noscript :=
  ⟨rfl, evalsha_after_flush_noscript_when_not_compiled compileAllOk execConst7 st0 5
    (sha1_sum "nosuch") [] [] rfl⟩

/-- The outcome of EVAL on a source that fails to compile, from a pristine
state. -/
def c3Out : ArdbEvalOut := Ardb.Eval compileAllFail execConst7 st0 1 "(" "0" [] false

/-- C3: code bug — the EVAL path saves the script to the cache before
compile-and-define, so an EVAL whose source fails to compile replies with
an error yet leaves the mapping in the Script Cache, and SCRIPT EXISTS
subsequently reports 1 for that source's hash. -/
theorem failed_compile_leaves_cache_entry_script_exists_one :
    c3Out.reply.isError = true ∧
    get_script_from_cache c3Out.st.cache ("f_" ++ sha1_sum "(") = some "(" ∧
    (Ardb.Script compileAllFail c3Out.st "EXISTS" [sha1_sum "("]).1 =
      RedisReply.array [RedisReply.integer 1] := ⟨rfl, rfl, rfl⟩

/-- The outcome of EVAL with numkeys 4294967294 = 2^32 - 2 and no keys. -/
def c9Out : ArdbEvalOut := Ardb.Eval compileAllOk execConst7 st0 1 "return 7" "4294967294" [] false

/-- C9: code bug — numkeys parses as a 32-bit value, but the validation
`size < numkey + 2` is performed in wrapping 32-bit arithmetic: for
numkeys = 2^32 - 2 the bound wraps to 0, the check passes although 0
remaining arguments is far smaller than numkeys, and the interpreter is
invoked instead of a syntax-error reply. -/
theorem numkeys_wraparound_bypasses_validation :
    string_touint32 "4294967294" = some 4294967294 ∧
    c9Out.invoked = true ∧
    c9Out.reply = RedisReply.integer 7 ∧
    c9Out.reply ≠ RedisReply.errCode ErrCode.invalidSyntax := by
  have h1 : c9Out.reply = RedisReply.integer 7 := rfl
  refine ⟨rfl, rfl, h1, fun hcon => ?_⟩
  rw [h1] at hcon
  exact RedisReply.noConfusion hcon

/-- True when some recorded save_script_to_cache call carried an empty
body, i.e. the erase branch of the cache-save routine executed. -/
def deletionTried (saves : List (String × String)) : Bool :=
  saves.any (fun e => e.2 == "")

/-- C5 counterexample: EVAL with an empty source, a documented command
surface entry point, calls save_script_to_cache with an empty body twice
(once before compile-and-define, once inside it), so the empty-body
deletion path IS triggered from the command surface. -/
theorem empty_source_triggers_cache_erase_cex :
    deletionTried (Ardb.Eval compileAllOk execConst7 st0 1 "" "0" [] false).saves = true ∧
    (Ardb.Eval compileAllOk execConst7 st0 1 "" "0" [] false).saves =
      [("f_" ++ sha1_sum "", ""), ("f_" ++ sha1_sum "", "")] := ⟨rfl, rfl⟩

/-- C10: the reply of a zero-database-call EVAL is a function of the
source, KEYS, ARGV and the engine's binding for the source's hash alone:
two invocations from states with the same binding — in particular with
arbitrarily different generator states — produce identical replies,
because every invocation reseeds the script-visible generator with the
fixed seed 0 before running.  The engine's protected call is modelled as a
deterministic function of the body, KEYS, ARGV and generator state, which
is exactly the situation of a script issuing no database calls. -/
theorem eval_reply_independent_of_prng_state
    (ce : String → Option String)
    (lx : String → List String → List String → Nat → ExecResult × Nat)
    (st1 st2 : ServerState) (id1 id2 : Nat) (s : String) (keys args : List String)
    (heng : alistGet st1.engine ("f_" ++ sha1_sum s) = alistGet st2.engine ("f_" ++ sha1_sum s)) :
    (LUAInterpreter.Eval ce lx st1 id1 s keys args false).reply =
      (LUAInterpreter.Eval ce lx st2 id2 s keys args false).reply := by
  cases h2 : alistGet st2.engine ("f_" ++ sha1_sum s) with
  | some body =>
    rw [eval_nonsha_hit ce lx st1 id1 s keys args body (heng.trans h2),
      eval_nonsha_hit ce lx st2 id2 s keys args body h2,
      runFunc_reply, runFunc_reply]
  | none =>
    rw [eval_nonsha_miss ce lx st1 id1 s keys args (heng.trans h2),
      eval_nonsha_miss ce lx st2 id2 s keys args h2]
    unfold LUAInterpreter.defineAndRun LUAInterpreter.CreateLuaFunction
    cases hcc : ce ("function " ++ ("f_" ++ sha1_sum s) ++ "() " ++ s ++ " end") with
    | some e => simp only [hcc]
    | none => simp only [hcc]; rw [runFunc_reply, runFunc_reply]

/-- Witness for C10: the same EVAL from the pristine state and from a state
whose generator was left at 999 yields the same reply. -/
theorem eval_reply_independent_of_prng_state_witness :
    alistGet st0.engine ("f_" ++ sha1_sum "x") =
      alistGet ({ st0 with prng := 999 } : ServerState).engine ("f_" ++ sha1_sum "x") ∧
    (LUAInterpreter.Eval compileAllOk execConst7 st0 7 "x" [] [] false).reply =
      (LUAInterpreter.Eval compileAllOk execConst7 { st0 with prng := 999 } 8 "x" [] [] false).reply :=
  ⟨rfl, eval_reply_independent_of_prng_state compileAllOk execConst7 st0
    { st0 with prng := 999 } 7 8 "x" [] [] rfl⟩

/-- C2: after a successful EVAL s 0, an immediately subsequent EVALSHA of
the content hash of s with 0 keys returns the same reply as re-running
EVAL s 0: both resolve to the engine's compiled function for the prefixed
hash of s (compiled by the first EVAL if it was not already present) and
invoke it with the same KEYS, ARGV and generator seed.  The engine's
protected call is modelled as a deterministic function, matching the
claim's idempotent-resolution reading. -/
theorem evalsha_same_reply_as_rerun_eval
    (ce : String → Option String)
    (lx : String → List String → List String → Nat → ExecResult × Nat)
    (st : ServerState) (id1 id2 id3 : Nat) (s : String)
    (hsucc : (Ardb.Eval ce lx st id1 s "0" [] false).reply.isError = false) :
    (Ardb.Eval ce lx (Ardb.Eval ce lx st id1 s "0" [] false).st id2 (sha1_sum s) "0" [] true).reply =
      (Ardb.Eval ce lx (Ardb.Eval ce lx st id1 s "0" [] false).st id3 s "0" [] false).reply := by
  have hsucc' : (LUAInterpreter.Eval ce lx st id1 s [] [] false).reply.isError = false := hsucc
  show (LUAInterpreter.Eval ce lx (LUAInterpreter.Eval ce lx st id1 s [] [] false).st
      id2 (sha1_sum s) [] [] true).reply =
    (LUAInterpreter.Eval ce lx (LUAInterpreter.Eval ce lx st id1 s [] [] false).st
      id3 s [] [] false).reply
  have key : ∀ (stx : ServerState) (ida idb : Nat) (body : String),
      alistGet stx.engine ("f_" ++ sha1_sum s) = some body →
      (LUAInterpreter.Eval ce lx stx ida (sha1_sum s) [] [] true).reply =
        (LUAInterpreter.Eval ce lx stx idb s [] [] false).reply := by
    intro stx ida idb body hb
    rw [eval_sha_hit ce lx stx ida (sha1_sum s) [] [] body (sha1_sum_length s) hb,
      eval_nonsha_hit ce lx stx idb s [] [] body hb,
      runFunc_reply, runFunc_reply]
  cases heng : alistGet st.engine ("f_" ++ sha1_sum s) with
  | some body =>
    apply key _ id2 id3 body
    rw [eval_nonsha_hit ce lx st id1 s [] [] body heng, runFunc_st_engine]
    exact heng
  | none =>
    rw [eval_nonsha_miss ce lx st id1 s [] [] heng] at hsucc' ⊢
    unfold LUAInterpreter.defineAndRun LUAInterpreter.CreateLuaFunction at hsucc' ⊢
    cases hcc : ce ("function " ++ ("f_" ++ sha1_sum s) ++ "() " ++ s ++ " end") with
    | some e =>
      simp only [hcc, RedisReply.isError] at hsucc'
      exact Bool.noConfusion hsucc'
    | none =>
      simp only [hcc]
      apply key _ id2 id3 s
      rw [runFunc_st_engine]
      show alistGet (alistPut st.engine ("f_" ++ sha1_sum s) s) ("f_" ++ sha1_sum s) = some s
      rw [alistGet_put]
      simp

/-- Witness for C2 at a concrete successful EVAL. -/
theorem evalsha_same_reply_as_rerun_eval_witness :
    (Ardb.Eval compileAllOk execConst7 st0 1 "return 7" "0" [] false).reply.isError = false ∧
    (Ardb.Eval compileAllOk execConst7
        (Ardb.Eval compileAllOk execConst7 st0 1 "return 7" "0" [] false).st
        2 (sha1_sum "return 7") "0" [] true).reply =
      (Ardb.Eval compileAllOk execConst7
        (Ardb.Eval compileAllOk execConst7 st0 1 "return 7" "0" [] false).st
        3 "return 7" "0" [] false).reply :=
  ⟨rfl, evalsha_same_reply_as_rerun_eval compileAllOk execConst7 st0 1 2 3 "return 7" rfl⟩

/-- The invocation tail inserts a fresh context and erases it again:
registry preserved when the identifier is fresh. -/
theorem runFunc_registry_preserved
    (lx : String → List String → List String → Nat → ExecResult × Nat)
    (st : ServerState) (id : Nat) (fn body : String) (keys args : List String)
    (sv : List (String × String)) (h : id ∉ st.registry.map LuaExecContext.id) :
    (LUAInterpreter.runFunc lx st id fn body keys args sv).st.registry = st.registry := by
  rw [runFunc_st_registry]
  exact erase_save_fresh st.registry
    { id := id, lua_time_start := 0, lua_executing_func := fn.drop 2,
      lua_timeout := false, lua_kill := false, lua_abort := false } h

/-- C6: the Execution Context registry is restored on every exit path of an
invocation — the rejected-hash, unknown-script and compile-failure paths
never register a context, and the invocation path registers one and erases
it again whether the protected call returned a value or an engine-level
error (the erase precedes the error handling) — and a SCRIPT KILL scan
only updates flags of contexts currently present in the registry, leaving
the registered identifier set unchanged, so a kill aimed at an already
unregistered context is a no-op. -/
theorem exec_ctx_unregistered_on_all_paths_and_kill_scans_registry :
    (∀ (ce : String → Option String)
       (lx : String → List String → List String → Nat → ExecResult × Nat)
       (st : ServerState) (id : Nat) (f : String) (keys args : List String) (b : Bool),
       id ∉ st.registry.map LuaExecContext.id →
       (LUAInterpreter.Eval ce lx st id f keys args b).st.registry = st.registry) ∧
    (∀ (reg : List LuaExecContext) (f : String),
       (kill_luafunc reg f).map LuaExecContext.id = reg.map LuaExecContext.id) := by
  constructor
  · intro ce lx st id f keys args b hfresh
    cases b with
    | false =>
      cases heng : alistGet st.engine ("f_" ++ sha1_sum f) with
      | some body =>
        rw [eval_nonsha_hit ce lx st id f keys args body heng]
        exact runFunc_registry_preserved lx _ id _ body keys args [] hfresh
      | none =>
        rw [eval_nonsha_miss ce lx st id f keys args heng]
        unfold LUAInterpreter.defineAndRun LUAInterpreter.CreateLuaFunction
        cases hcc : ce ("function " ++ ("f_" ++ sha1_sum f) ++ "() " ++ f ++ " end") with
        | some e => simp only [hcc]
        | none =>
          simp only [hcc]
          exact runFunc_registry_preserved lx _ id _ f keys args _ hfresh
    | true =>
      by_cases hl : f.length = 40
      · cases heng : alistGet st.engine ("f_" ++ f) with
        | some body =>
          rw [eval_sha_hit ce lx st id f keys args body hl heng]
          exact runFunc_registry_preserved lx _ id _ body keys args [] hfresh
        | none =>
          cases hc : get_script_from_cache st.cache ("f_" ++ f) with
          | none => rw [eval_sha_miss_cachemiss ce lx st id f keys args hl heng hc]
          | some body =>
            rw [eval_sha_miss_cachehit ce lx st id f keys args body hl heng hc]
            unfold LUAInterpreter.defineAndRun LUAInterpreter.CreateLuaFunction
            cases hcc : ce ("function " ++ ("f_" ++ f) ++ "() " ++ body ++ " end") with
            | some e => simp only [hcc]
            | none =>
              simp only [hcc]
              exact runFunc_registry_preserved lx _ id _ body keys args _ hfresh
      · rw [eval_sha_badlen ce lx st id f keys args hl]
  · intro reg f
    unfold kill_luafunc
    rw [List.map_map]
    apply List.map_congr_left
    intro c _
    by_cases h : f = c.lua_executing_func ∨ f = ""
    · simp [h]
    · simp [h]

/-- Witness for C6: a concrete invocation leaves the pristine registry
unchanged, and a kill scan over a one-context registry keeps exactly that
context's identifier. -/
theorem exec_ctx_unregistered_on_all_paths_and_kill_scans_registry_witness :
    (7 ∉ st0.registry.map LuaExecContext.id) ∧
    (LUAInterpreter.Eval compileAllOk execConst7 st0 7 "return 7" [] [] false).st.registry =
      st0.registry ∧
    (kill_luafunc [⟨1, 0, "abc", false, false, false⟩] "abc").map
      LuaExecContext.id = [1] :=
  ⟨by simp [st0], exec_ctx_unregistered_on_all_paths_and_kill_scans_registry.1
      compileAllOk execConst7 st0 7 "return 7" [] [] false (by simp [st0]),
    exec_ctx_unregistered_on_all_paths_and_kill_scans_registry.2 _ "abc"⟩

/-- Saving a nonempty body never removes a key from the cache. -/
theorem save_nonempty_preserves_key (cache : List (String × String)) (fn body k : String)
    (hbody : body ≠ "") (h : (alistGet cache k).isSome = true) :
    (alistGet (save_script_to_cache cache fn body) k).isSome = true := by
  unfold save_script_to_cache
  rw [if_neg hbody]
  exact alistGet_put_isSome cache fn body k h

/-- C5 (amended): no stored Script Cache entry is removed by EVAL with a
nonempty source, by EVALSHA over a cache whose stored bodies are all
nonempty (which every cache built by these operations is, since the save
routine only stores nonempty bodies), or by SCRIPT LOAD with a nonempty
source — every key present before the operation is present after it.  The
empty-body deletion path IS however reachable from the command surface:
EVAL or SCRIPT LOAD with an empty source call the save routine with an
empty body (see the counterexample), though the erased key is the empty
source's own hash, for which no entry is ever stored. -/
theorem nonempty_ops_never_remove_cache_keys :
    (∀ (ce : String → Option String)
       (lx : String → List String → List String → Nat → ExecResult × Nat)
       (st : ServerState) (id : Nat) (src : String) (keys args : List String) (k : String),
       src ≠ "" → (alistGet st.cache k).isSome = true →
       (alistGet (LUAInterpreter.Eval ce lx st id src keys args false).st.cache k).isSome = true) ∧
    (∀ (ce : String → Option String)
       (lx : String → List String → List String → Nat → ExecResult × Nat)
       (st : ServerState) (id : Nat) (h : String) (keys args : List String) (k : String),
       (∀ e ∈ st.cache, e.2 ≠ "") → (alistGet st.cache k).isSome = true →
       (alistGet (LUAInterpreter.Eval ce lx st id h keys args true).st.cache k).isSome = true) ∧
    (∀ (ce : String → Option String) (st : ServerState) (src k : String),
       src ≠ "" → (alistGet st.cache k).isSome = true →
       (alistGet (LUAInterpreter.Load ce st src).st.cache k).isSome = true) := by
  refine ⟨?_, ?_, ?_⟩
  · intro ce lx st id src keys args k hsrc hbefore
    cases heng : alistGet st.engine ("f_" ++ sha1_sum src) with
    | some body =>
      rw [eval_nonsha_hit ce lx st id src keys args body heng, runFunc_st_cache]
      exact hbefore
    | none =>
      rw [eval_nonsha_miss ce lx st id src keys args heng]
      unfold LUAInterpreter.defineAndRun LUAInterpreter.CreateLuaFunction
      cases hcc : ce ("function " ++ ("f_" ++ sha1_sum src) ++ "() " ++ src ++ " end") with
      | some e =>
        simp only [hcc]
        exact save_nonempty_preserves_key st.cache _ src k hsrc hbefore
      | none =>
        simp only [hcc]
        rw [runFunc_st_cache]
        exact save_nonempty_preserves_key _ _ src k hsrc
          (save_nonempty_preserves_key st.cache _ src k hsrc hbefore)
  · intro ce lx st id h keys args k hwf hbefore
    by_cases hl : h.length = 40
    · cases heng : alistGet st.engine ("f_" ++ h) with
      | some body =>
        rw [eval_sha_hit ce lx st id h keys args body hl heng, runFunc_st_cache]
        exact hbefore
      | none =>
        cases hc : get_script_from_cache st.cache ("f_" ++ h) with
        | none =>
          rw [eval_sha_miss_cachemiss ce lx st id h keys args hl heng hc]
          exact hbefore
        | some body =>
          have hbody : body ≠ "" := hwf _ (alistGet_mem hc)
          rw [eval_sha_miss_cachehit ce lx st id h keys args body hl heng hc]
          unfold LUAInterpreter.defineAndRun LUAInterpreter.CreateLuaFunction
          cases hcc : ce ("function " ++ ("f_" ++ h) ++ "() " ++ body ++ " end") with
          | some e => simp only [hcc]; exact hbefore
          | none =>
            simp only [hcc]
            rw [runFunc_st_cache]
            exact save_nonempty_preserves_key st.cache _ body k hbody hbefore
    · rw [eval_sha_badlen ce lx st id h keys args hl]
      exact hbefore
  · intro ce st src k hsrc hbefore
    unfold LUAInterpreter.Load LUAInterpreter.CreateLuaFunction
    cases hcc : ce ("function " ++ ("f_" ++ sha1_sum src) ++ "() " ++ src ++ " end") with
    | some e => simp only [hcc]; exact hbefore
    | none =>
      simp only [hcc]
      exact save_nonempty_preserves_key st.cache _ src k hsrc hbefore

/-- Witness for the amended C5 theorem: a stored entry survives EVAL,
EVALSHA and SCRIPT LOAD at a concrete state. -/
theorem nonempty_ops_never_remove_cache_keys_witness :
    (alistGet [("f_k", "b")] "f_k").isSome = true ∧
    (∀ e ∈ [("f_k", "b")], e.2 ≠ "") ∧
    (alistGet (LUAInterpreter.Eval compileAllOk execConst7 { st0 with cache := [("f_k", "b")] }
      1 "x" [] [] false).st.cache "f_k").isSome = true ∧
    (alistGet (LUAInterpreter.Eval compileAllOk execConst7 { st0 with cache := [("f_k", "b")] }
      2 (sha1_sum "y") [] [] true).st.cache "f_k").isSome = true ∧
    (alistGet (LUAInterpreter.Load compileAllOk { st0 with cache := [("f_k", "b")] }
      "z").st.cache "f_k").isSome = true :=
  ⟨rfl, by decide,
    nonempty_ops_never_remove_cache_keys.1 compileAllOk execConst7
      { st0 with cache := [("f_k", "b")] } 1 "x" [] [] "f_k" (by decide) rfl,
    nonempty_ops_never_remove_cache_keys.2.1 compileAllOk execConst7
      { st0 with cache := [("f_k", "b")] } 2 (sha1_sum "y") [] [] "f_k" (by decide) rfl,
    nonempty_ops_never_remove_cache_keys.2.2 compileAllOk
      { st0 with cache := [("f_k", "b")] } "z" "f_k" (by decide) rfl⟩

/-- A sample command table with one NOSCRIPT-flagged command, for concrete
runs of the bridge. -/
def noscriptTable : String → Option CmdSetting :=
  fun n => if n = "shutdown" then some { noscript := true } else none

/-- A sample dispatch oracle for concrete runs of the bridge. -/
def constDoCall : List String → RedisReply := fun _ => RedisReply.bulk "v"

/-- C4 counterexample: for a command flagged as not permitted inside
scripts, NEITHER builtin raises an engine-level error — redis.call (the
wrapper with raise_error = false) and redis.pcall (the wrapper with
raise_error = true) both return the error table to the script with the
code's result count of -1, without raising and without dispatching;
in particular the raising behaviour the claim attributes to redis.call
does not occur. -/
theorem noscript_call_no_raise_cex :
    (redisCallBuiltin noscriptTable constDoCall [.str "shutdown"]).outcome.isRaise = false ∧
    (redisPCallBuiltin noscriptTable constDoCall [.str "shutdown"]).outcome.isRaise = false ∧
    (redisCallBuiltin noscriptTable constDoCall [.str "shutdown"]).dispatched = false ∧
    (redisPCallBuiltin noscriptTable constDoCall [.str "shutdown"]).dispatched = false ∧
    (redisCallBuiltin noscriptTable constDoCall [.str "shutdown"]).outcome =
      .ret (luaPushError "This Redis command is not allowed from scripts") (-1) ∧
    (redisPCallBuiltin noscriptTable constDoCall [.str "shutdown"]).outcome =
      .ret (luaPushError "This Redis command is not allowed from scripts") (-1) :=
  ⟨rfl, rfl, rfl, rfl, rfl, rfl⟩

/-- C4 (amended): a command whose table entry carries the NOSCRIPT flag is
never dispatched, and for both builtins — whatever the raise_error flag —
the bridge pushes an error table and returns it to the script without
raising an engine-level error. -/
theorem noscript_flagged_never_dispatched (fs : String → Option CmdSetting)
    (dc : List String → RedisReply) (raise_error : Bool) (a0 : LuaValue)
    (rest : List LuaValue) (setting : CmdSetting)
    (hstr : (a0 :: rest).all luaIsStringArg = true)
    (hfind : fs (luaArgToString a0) = some setting)
    (hns : setting.noscript = true) :
    (CallArdb fs dc raise_error (a0 :: rest)).dispatched = false ∧
    (CallArdb fs dc raise_error (a0 :: rest)).outcome =
      .ret (luaPushError "This Redis command is not allowed from scripts") (-1) := by
  unfold CallArdb
  simp [hstr, hfind, hns]

/-- Witness for the amended C4 theorem at the sample table, exercising the
raising wrapper. -/
theorem noscript_flagged_never_dispatched_witness :
    ([LuaValue.str "shutdown"].all luaIsStringArg = true) ∧
    noscriptTable (luaArgToString (.str "shutdown")) = some { noscript := true } ∧
    (CallArdb noscriptTable constDoCall true [.str "shutdown"]).dispatched = false ∧
    (CallArdb noscriptTable constDoCall true [.str "shutdown"]).outcome =
      .ret (luaPushError "This Redis command is not allowed from scripts") (-1) :=
  ⟨rfl, rfl,
    (noscript_flagged_never_dispatched noscriptTable constDoCall true (.str "shutdown") []
      { noscript := true } rfl rfl rfl).1,
    (noscript_flagged_never_dispatched noscriptTable constDoCall true (.str "shutdown") []
      { noscript := true } rfl rfl rfl).2⟩

theorem luaToRedisFuel_table_succ (g : Nat) (entries : List (LuaKey × LuaValue)) :
    luaToRedisFuel (g + 1) (.table entries) =
      match tblGet entries (.str "err") with
      | .str e => .error (string_replace_crlf e)
      | _ =>
        match tblGet entries (.str "ok") with
        | .str o => .status (string_replace_crlf o)
        | _ => .array ((seqList entries 1 entries.length).map (luaToRedisFuel g)) := rfl

theorem luaReplyToRedisReply_table (entries : List (LuaKey × LuaValue)) :
    luaReplyToRedisReply (.table entries) =
      match tblGet entries (.str "err") with
      | .str e => .error (string_replace_crlf e)
      | _ =>
        match tblGet entries (.str "ok") with
        | .str o => .status (string_replace_crlf o)
        | _ => .array ((seqList entries 1 entries.length).map
            (luaToRedisFuel (luaSizeEntries entries))) := by
  unfold luaReplyToRedisReply
  have h : luaSize (LuaValue.table entries) = luaSizeEntries entries + 1 := by
    simp [luaSize]; omega
  rw [h, luaToRedisFuel_table_succ]

theorem seqList_step_cons {entries : List (LuaKey × LuaValue)} {j fuel : Nat} {v : LuaValue}
    (htg : tblGet entries (.num (Int.ofNat j)) = v) (hv : v ≠ .nil) :
    seqList entries j (fuel + 1) = v :: seqList entries (j + 1) fuel := by
  simp only [seqList]
  split
  all_goals first
    | (rename_i heq
       exact absurd (htg.symm.trans heq) hv)
    | rw [htg]

theorem seqList_step_nil {entries : List (LuaKey × LuaValue)} {j fuel : Nat}
    (htg : tblGet entries (.num (Int.ofNat j)) = .nil) :
    seqList entries j (fuel + 1) = [] := by
  simp only [seqList]
  split
  all_goals first
    | rfl
    | (rename_i hne
       exact absurd htg hne)

/-- Characterisation of the sequential-key loop: if the keys j, ..., j+k-1
are present and key j+k is the first gap, any fuel of at least k steps
produces exactly the values at those keys in order. -/
theorem seqList_spec (entries : List (LuaKey × LuaValue)) :
    ∀ (k j fuel : Nat), k ≤ fuel →
    tblGet entries (.num (Int.ofNat (j + k))) = .nil →
    (∀ i, i < k → tblGet entries (.num (Int.ofNat (j + i))) ≠ .nil) →
    seqList entries j fuel =
      (List.range k).map (fun i => tblGet entries (.num (Int.ofNat (j + i)))) := by
  intro k
  induction k with
  | zero =>
    intro j fuel _ hgap _
    rw [Nat.add_zero] at hgap
    cases fuel with
    | zero => simp [seqList]
    | succ f => simp [seqList_step_nil hgap]
  | succ k' ih =>
    intro j fuel hk hgap hpres
    cases fuel with
    | zero => omega
    | succ f =>
      have h0 : tblGet entries (.num (Int.ofNat j)) ≠ .nil := by
        have := hpres 0 (Nat.succ_pos k')
        rwa [Nat.add_zero] at this
      rw [seqList_step_cons rfl h0]
      have hih : seqList entries (j + 1) f =
          (List.range k').map (fun i => tblGet entries (.num (Int.ofNat (j + 1 + i)))) := by
        apply ih (j + 1) f (by omega)
        · rw [show j + 1 + k' = j + (k' + 1) from by omega]
          exact hgap
        · intro i hi
          rw [show j + 1 + i = j + (i + 1) from by omega]
          exact hpres (i + 1) (by omega)
      rw [hih, List.range_succ_eq_map, List.map_cons, List.map_map, Nat.add_zero]
      congr 1
      apply List.map_congr_left
      intro i _
      simp only [Function.comp, Nat.succ_eq_add_one]
      rw [show j + 1 + i = j + (i + 1) from by omega]

/-- Pigeonhole bound for the array loop: if the keys 1, ..., k are all
present in the table, then k is at most the number of entries, since the
present keys are distinct and each is the key of some entry. -/
theorem seq_present_le_length (entries : List (LuaKey × LuaValue)) (k : Nat)
    (hpres : ∀ i, i < k → tblGet entries (.num (Int.ofNat (1 + i))) ≠ .nil) :
    k ≤ entries.length := by
  have hsub : ((List.range k).map (fun i => LuaKey.num (Int.ofNat (1 + i)))) ⊆
      entries.map Prod.fst := by
    intro a ha
    simp only [List.mem_map, List.mem_range] at ha
    obtain ⟨i, hi, rfl⟩ := ha
    have hne := hpres i hi
    have hmem := tblGet_mem (rfl :
      tblGet entries (.num (Int.ofNat (1 + i))) = tblGet entries (.num (Int.ofNat (1 + i)))) hne
    exact List.mem_map.mpr ⟨_, hmem, rfl⟩
  have hinj : Function.Injective (fun i : Nat => LuaKey.num (Int.ofNat (1 + i))) := by
    intro a b hab
    simp only [LuaKey.num.injEq] at hab
    exact Nat.add_left_cancel (Int.ofNat.inj hab)
  have hnd : ((List.range k).map (fun i => LuaKey.num (Int.ofNat (1 + i)))).Nodup :=
    List.Nodup.map hinj (List.nodup_range k)
  have hlen := (List.subperm_of_subset hnd hsub).length_le
  simpa using hlen

/-- C7: a returned table with neither a string `err` field nor a string
`ok` field converts to an ARRAY obtained by reading the sequential 1-based
integer keys 1, ..., k where k+1 is the first missing key, converting each
present element recursively in order; the reply is entirely determined by
the elements at keys up to the gap, so elements beyond the gap are never
inspected. -/
theorem table_reply_is_seq_prefix_array (entries : List (LuaKey × LuaValue)) (k : Nat)
    (herr : (tblGet entries (.str "err")).isStr = false)
    (hok : (tblGet entries (.str "ok")).isStr = false)
    (hgap : (tblGet entries (.num (Int.ofNat (1 + k)))).isNil = true)
    (hpres : ∀ i, i < k → (tblGet entries (.num (Int.ofNat (1 + i)))).isNil = false) :
    luaReplyToRedisReply (.table entries) =
      .array ((List.range k).map
        (fun i => luaReplyToRedisReply (tblGet entries (.num (Int.ofNat (1 + i)))))) := by
  have hgap' : tblGet entries (.num (Int.ofNat (1 + k))) = .nil := isNil_eq_true_iff.mp hgap
  have hpres' : ∀ i, i < k → tblGet entries (.num (Int.ofNat (1 + i))) ≠ .nil := by
    intro i hi hcon
    have hh := hpres i hi
    rw [hcon] at hh
    simp [LuaValue.isNil] at hh
  have hk := seq_present_le_length entries k hpres'
  rw [luaReplyToRedisReply_table]
  split
  all_goals try (rename_i e heq; rw [heq] at herr; simp [LuaValue.isStr] at herr)
  split
  all_goals try (rename_i o heq; rw [heq] at hok; simp [LuaValue.isStr] at hok)
  congr 1
  rw [seqList_spec entries k 1 entries.length hk hgap' hpres', List.map_map]
  apply List.map_congr_left
  intro i hi
  simp only [Function.comp]
  unfold luaReplyToRedisReply
  apply luaToRedisFuel_congr
  · have hnei := hpres' i (List.mem_range.mp hi)
    have hmem := tblGet_mem (rfl :
      tblGet entries (.num (Int.ofNat (1 + i))) = tblGet entries (.num (Int.ofNat (1 + i)))) hnei
    have := luaSize_lt_of_key_mem hmem
    omega
  · exact le_refl _

/-- The table of EVAL "return {1,2,nil,4}": keys 1, 2 and 4 are present,
key 3 is the first gap. -/
def c7entries : List (LuaKey × LuaValue) :=
  [(.num 1, .num 1), (.num 2, .num 2), (.num 4, .num 4)]

/-- Witness for C7 at the spec's own example: {1,2,nil,4} converts to
ARRAY [INTEGER 1, INTEGER 2], truncated at the first hole. -/
theorem table_reply_is_seq_prefix_array_witness :
    ((tblGet c7entries (.str "err")).isStr = false) ∧
    ((tblGet c7entries (.str "ok")).isStr = false) ∧
    ((tblGet c7entries (.num (Int.ofNat (1 + 2)))).isNil = true) ∧
    (∀ i, i < 2 → (tblGet c7entries (.num (Int.ofNat (1 + i)))).isNil = false) ∧
    luaReplyToRedisReply (.table c7entries) =
      .array [RedisReply.integer 1, RedisReply.integer 2] := by
  refine ⟨rfl, rfl, rfl, by decide, ?_⟩
  rw [table_reply_is_seq_prefix_array c7entries 2 rfl rfl rfl (by decide)]
  rfl

/-- C8: a returned table with a string `err` field converts to an ERROR
whose message is the field's text with every literal CR LF pair replaced
by a single space, regardless of any `ok` field (the `err` check comes
first, so it takes precedence); a table whose `err` field is not a string
but whose `ok` field is converts to a STATUS with the same sanitisation. -/
theorem err_ok_table_reply_conversion :
    (∀ (entries : List (LuaKey × LuaValue)) (e : String),
       tblGet entries (.str "err") = .str e →
       luaReplyToRedisReply (.table entries) = .error (string_replace_crlf e)) ∧
    (∀ (entries : List (LuaKey × LuaValue)) (o : String),
       (tblGet entries (.str "err")).isStr = false →
       tblGet entries (.str "ok") = .str o →
       luaReplyToRedisReply (.table entries) = .status (string_replace_crlf o)) := by
  constructor
  · intro entries e herr
    rw [luaReplyToRedisReply_table]
    split
    · rename_i e' heq
      rw [herr] at heq
      cases heq
      rfl
    · rename_i hno
      exact absurd herr (by intro hcon; exact hno e hcon)
  · intro entries o herrflag hok
    rw [luaReplyToRedisReply_table]
    split
    · rename_i e' heq
      rw [heq] at herrflag
      simp [LuaValue.isStr] at herrflag
    · split
      · rename_i o' heq
        rw [hok] at heq
        cases heq
        rfl
      · rename_i hno
        exact absurd hok (by intro hcon; exact hno o hcon)

/-- A table with both fields, the error text containing a CRLF pair. -/
def c8err : List (LuaKey × LuaValue) := [(.str "ok", .str "FINE"), (.str "err", .str "a\r\nb")]

/-- A table with only a status field containing a CRLF pair. -/
def c8ok : List (LuaKey × LuaValue) := [(.str "ok", .str "x\r\ny")]

/-- Witness for C8: the `err` field wins over the `ok` field and the CRLF
pair becomes a space; a lone string `ok` field becomes a sanitised
STATUS. -/
theorem err_ok_table_reply_conversion_witness :
    tblGet c8err (.str "err") = .str "a\r\nb" ∧
    luaReplyToRedisReply (.table c8err) = .error "a b" ∧
    (tblGet c8ok (.str "err")).isStr = false ∧
    tblGet c8ok (.str "ok") = .str "x\r\ny" ∧
    luaReplyToRedisReply (.table c8ok) = .status "x y" := by
  refine ⟨rfl, ?_, rfl, rfl, ?_⟩
  · rw [err_ok_table_reply_conversion.1 c8err "a\r\nb" rfl]
    rfl
  · rw [err_ok_table_reply_conversion.2 c8ok "x\r\ny" rfl rfl]
    rfl
